import Mathlib

/-!
Shallow embedding of the conversation threading and follow-up classification
engine of the email management module, together with proofs of the spec
claims.

Modelling conventions:
- Instants (Python datetime values) are modelled as UTC epoch seconds of
  type Int.  The helper normalize_datetime in routes.py converts naive and
  aware datetimes to aware UTC datetimes; on instants this is the identity.
- The msgraph SDK model classes always carry their attributes, defaulting
  them to None; Option.none models the value None, and a getattr call on
  such an object returns the attribute itself (possibly None), never the
  getattr default.  A getattr on None returns the getattr default.
- Python truthiness on strings (None and the empty string are falsy) is
  modelled by the function truthy below.
- Python list.sort and sorted are stable sorts; they are modelled by
  Mathlib List.insertionSort, which is stable.  In Python 3 the sort key
  received_date_time or sent_date_time or the empty string mixes datetime
  and str values; comparing a datetime with a str raises TypeError, so a
  bucket holding both a keyed and an unkeyed message makes the sort raise.
  This is modelled by returning Except.error for such a bucket.
- The builtin Python string hash is deterministic inside one process; it is
  modelled by the concrete pure function hashStr.
- In the derived-key fallback of _get_conversation_id, a None subject or a
  None sender address makes the concatenation under the hash raise
  TypeError in Python; this is modelled as an error value, which aborts the
  grouping loop when it calls the resolver.
-/

/-- Model of msgraph EmailAddress: the address attribute may be None. -/
structure EmailAddress where
  address : Option String
deriving DecidableEq

/-- Model of msgraph Recipient: wraps an optional EmailAddress. -/
structure Recipient where
  email_address : Option EmailAddress
deriving DecidableEq

/-- Model of a raw msgraph message, with exactly the attributes the
threading and classification engine reads. -/
structure GraphMessage where
  conversation_id : Option String
  internet_message_id : Option String
  subject : Option String
  from_ : Option Recipient
  received_date_time : Option Int
  sent_date_time : Option Int
deriving DecidableEq

/-- Model of Python str.lower as used on email addresses: ASCII lowering,
mapped over the characters of the string. -/
def lowerStr (s : String) : String :=
  String.mk (s.data.map Char.toLower)

/-- Python truthiness for an optional string: None and the empty string are
falsy; a non-empty string is returned unchanged. -/
def truthy : Option String → Option String
  | none => none
  | some s => if s = "" then none else some s

/-- Model of _normalize_datetime in routes.py: naive datetimes are assumed
UTC and aware datetimes are converted to UTC.  On instants (epoch seconds)
this is the identity. -/
def _normalize_datetime (t : Int) : Int := t

/-- Deterministic model of the builtin Python string hash as used by
_get_conversation_id: a pure function of the string. -/
def hashStr (s : String) : Nat :=
  s.data.foldl (fun h c => (h * 31 + c.toNat) % 1000000007) 7

instance : DecidableEq (Except String String) := fun a b =>
  match a, b with
  | .error x, .error y =>
    if h : x = y then isTrue (by rw [h]) else isFalse (fun he => h (Except.error.inj he))
  | .ok x, .ok y =>
    if h : x = y then isTrue (by rw [h]) else isFalse (fun he => h (Except.ok.inj he))
  | .error _, .ok _ => isFalse (fun he => Except.noConfusion he)
  | .ok _, .error _ => isFalse (fun he => Except.noConfusion he)

/-- The value of the from_email variable in the derived-key fallback of
_get_conversation_id.  A None from_ fails the truthiness guard and leaves
the starting empty string; a getattr on a None email_address returns the
empty-string getattr default; a present email_address yields its address
attribute, which may itself be None. -/
def senderFromEmail (m : GraphMessage) : Option String :=
  match m.from_ with
  | none => some ""
  | some f =>
    match f.email_address with
    | none => some ""
    | some ea => ea.address

/-- Model of GraphService._get_conversation_id on msgraph message models:
provider conversation id if truthy, else internet message id if truthy,
else the derived key subject_ followed by the hash of subject plus sender
address.  The subject attribute always exists and may be None, so the
getattr default No Subject never fires; when the subject or the extracted
sender address is None, the concatenation under the hash raises TypeError,
modelled as an error value. -/
def _get_conversation_id (m : GraphMessage) : Except String String :=
  match truthy m.conversation_id with
  | some cid => .ok cid
  | none =>
    match truthy m.internet_message_id with
    | some iid => .ok iid
    | none =>
      match m.subject, senderFromEmail m with
      | some subject, some from_email =>
        .ok ("subject_" ++ toString (hashStr (subject ++ from_email)))
      | _, _ => .error ("TypeError: unsupported operand types for + with NoneType")

/-- The resolved key of a message, as read by the bucketing loop on the
success path; when resolution raises, grouping has already aborted, so the
empty-string value of the error case is never consulted there. -/
def conversationKeyOrEmpty (m : GraphMessage) : String :=
  match _get_conversation_id m with
  | .ok s => s
  | .error _ => ""

/-- Resolution of every message of the collection in its input order: the
first TypeError raised by _get_conversation_id aborts the bucketing loop of
group_messages_by_conversation_single_folder. -/
def resolveAll : List GraphMessage → Except String (List String)
  | [] => .ok []
  | m :: rest =>
    match _get_conversation_id m with
    | .error e => .error e
    | .ok k =>
      match resolveAll rest with
      | .error e => .error e
      | .ok ks => .ok (k :: ks)

/-- The effective timestamp of a message: received time if present, else
sent time, else none.  This is the sort key used by the grouper (where none
models the empty-string fallback key) and the time used by the classifier. -/
def effTs (m : GraphMessage) : Option Int :=
  m.received_date_time.or m.sent_date_time

/-- Comparison of two sort keys as Python compares them when both are of
the same type: two absent keys (both the empty string) are tied, and two
present keys compare as instants.  The mixed cases never arise in a bucket
that sorts without error. -/
def tsLE : Option Int → Option Int → Bool
  | none, none => true
  | none, some _ => true
  | some _, none => false
  | some x, some y => decide (x ≤ y)

/-- The sort relation on messages used when sorting a bucket. -/
def msgLE (a b : GraphMessage) : Prop :=
  tsLE (effTs a) (effTs b) = true

instance : DecidableRel msgLE := fun a b =>
  inferInstanceAs (Decidable (tsLE (effTs a) (effTs b) = true))

instance : IsTotal GraphMessage msgLE where
  total a b := by
    unfold msgLE
    cases ha : effTs a <;> cases hb : effTs b <;> simp [tsLE] <;> omega

instance : IsTrans GraphMessage msgLE where
  trans a b c := by
    unfold msgLE
    cases effTs a <;> cases effTs b <;> cases effTs c <;> simp [tsLE] <;> omega

/-- Model of sorting one bucket with Python list.sort under the key
received_date_time or sent_date_time or the empty string.  If the bucket
holds both a message with a key and a message without one, Python 3 raises
TypeError comparing str with datetime; otherwise the stable sort runs. -/
def sortBucket (ms : List GraphMessage) : Except String (List GraphMessage) :=
  if (ms.any fun m => (effTs m).isSome) && (ms.any fun m => (effTs m).isNone) then
    .error ("TypeError: unsupported comparison between str and datetime")
  else
    .ok (List.insertionSort msgLE ms)

/-- Keys in first-occurrence order, modelling Python dict insertion order. -/
def firstKeys : List String → List String
  | [] => []
  | k :: ks => k :: (firstKeys ks).filter (fun k2 => decide (k2 ≠ k))

/-- Sort every bucket of the grouping, propagating a sort failure. -/
def sortAll : List (String × List GraphMessage) →
    Except String (List (String × List GraphMessage))
  | [] => .ok []
  | (k, ms) :: rest =>
    match sortBucket ms with
    | .error e => .error e
    | .ok s =>
      match sortAll rest with
      | .error e => .error e
      | .ok r => .ok ((k, s) :: r)

/-- The bucketing loop of group_messages_by_conversation_single_folder:
bucket the messages by resolved conversation id (skipping a message whose
resolved id is falsy, which never happens), keeping dict insertion order
for the keys and input order inside every bucket. -/
def rawBuckets (messages : List GraphMessage) : List (String × List GraphMessage) :=
  let kept := messages.filter fun m => decide (conversationKeyOrEmpty m ≠ "")
  let keys := firstKeys (kept.map conversationKeyOrEmpty)
  keys.map fun k => (k, kept.filter fun m => decide (conversationKeyOrEmpty m = k))

/-- Model of GraphService.group_messages_by_conversation_single_folder: the
loop resolves each conversation id in input order, so the first resolution
TypeError aborts the call; otherwise the messages are bucketed by resolved
key and each bucket is sorted by effective timestamp. -/
def group_messages_by_conversation_single_folder (messages : List GraphMessage) :
    Except String (List (String × List GraphMessage)) :=
  match resolveAll messages with
  | .error e => .error e
  | .ok _ => sortAll (rawBuckets messages)

/-- Model of the reply-detection test in get_conversations: the message is
from the current user when the resolved current-user email is truthy, the
sender chain is present, the sender address is truthy and the two addresses
are equal case-insensitively. -/
def isFromCurrentUser (current_user_email : Option String) (m : GraphMessage) : Bool :=
  match truthy current_user_email with
  | none => false
  | some cue =>
    match m.from_ with
    | none => false
    | some f =>
      match f.email_address with
      | none => false
      | some ea =>
        match truthy ea.address with
        | none => false
        | some se => lowerStr se == lowerStr cue

/-- Model of the nudge test in get_conversations: the previous message
exists, is also from the current user, both messages have resolvable
effective timestamps, and the normalized gap is at least 3 days. -/
def nudgeCheck (cu : Option String) (prev : Option GraphMessage) (m : GraphMessage) : Bool :=
  match prev with
  | none => false
  | some p =>
    if isFromCurrentUser cu p then
      match effTs m, effTs p with
      | some ct, some pt =>
        decide (_normalize_datetime ct - _normalize_datetime pt ≥ 3 * 86400)
      | _, _ => false
    else false

/-- The role assigned to one message given the walk state: reply when not
from the current user; initial for the first current-user message; nudge or
follow_up for later current-user messages. -/
def mkRole (cu : Option String) (ff : Bool) (prev : Option GraphMessage)
    (m : GraphMessage) : String :=
  if isFromCurrentUser cu m then
    if ff = false then "initial"
    else if nudgeCheck cu prev m then "nudge" else "follow_up"
  else "reply"

/-- Model of the EmailMessage response record restricted to the fields the
engine computes or reads downstream: the carried-through base message, the
assigned message_type and the is_from_current_user flag. -/
structure AnnMessage where
  base : GraphMessage
  message_type : String
  is_from_current_user : Bool
deriving DecidableEq

/-- The classification walk of get_conversations over a chronologically
sorted thread: state is the first-user-message flag and the previous
message, both starting empty for each thread. -/
def annotateGo (cu : Option String) : Bool → Option GraphMessage →
    List GraphMessage → List AnnMessage
  | _, _, [] => []
  | ff, prev, m :: rest =>
    let fu := isFromCurrentUser cu m
    ⟨m, mkRole cu ff prev m, fu⟩ :: annotateGo cu (ff || fu) (some m) rest

/-- Classify a sorted thread, producing the annotated messages. -/
def annotate (cu : Option String) (msgs : List GraphMessage) : List AnnMessage :=
  annotateGo cu false none msgs

/-- The list of roles assigned to a sorted thread. -/
def classifyRoles (cu : Option String) (msgs : List GraphMessage) : List String :=
  (annotate cu msgs).map (fun a => a.message_type)

/-- The last_message_status variable of get_conversations: starts as
unknown and is overwritten by the role of every walked message, so it ends
as the role of the last message. -/
def lastStatus (anns : List AnnMessage) : String :=
  match anns.getLast? with
  | some a => a.message_type
  | none => "unknown"

/-- Model of the Conversation response record. -/
structure Conversation where
  conversation_id : String
  messages : List AnnMessage
  total_messages : Nat
  last_message_status : String
deriving DecidableEq

/-- Model of the ConversationsResponse record. -/
structure ConversationsResponse where
  conversations : List Conversation
  total_conversations : Nat
  total_messages : Nat
deriving DecidableEq

/-- The response-building loop of get_conversations.  Each iteration sorts
the bucket again, classifies it, appends the Conversation and overwrites
total_messages with the message count of the current conversation. -/
def build_loop (cu : Option String) (acc : List Conversation) (total_messages : Nat) :
    List (String × List GraphMessage) → Except String (List Conversation × Nat)
  | [] => .ok (acc, total_messages)
  | (cid, ms) :: rest =>
    match sortBucket ms with
    | .error e => .error e
    | .ok sorted =>
      let anns := annotate cu sorted
      let conv : Conversation := ⟨cid, anns, anns.length, lastStatus anns⟩
      build_loop cu (acc ++ [conv]) anns.length rest

/-- Model of the body of get_conversations after folder and limit
validation: an absent or empty message page yields an empty response, else
the messages are grouped, classified and assembled into the response. -/
def get_conversations_core (cu : Option String) (page : Option (List GraphMessage)) :
    Except String ConversationsResponse :=
  match page with
  | none => .ok ⟨[], 0, 0⟩
  | some msgs =>
    if msgs.isEmpty then .ok ⟨[], 0, 0⟩
    else
      match group_messages_by_conversation_single_folder msgs with
      | .error e => .error e
      | .ok dict =>
        if dict.isEmpty then .ok ⟨[], 0, 0⟩
        else
          match build_loop cu [] 0 dict with
          | .error e => .error e
          | .ok (convs, total) => .ok ⟨convs, convs.length, total⟩

/-- Model of the full get_conversations endpoint: folder and limit
validation raise invalid-input errors, then the core runs. -/
def get_conversations_pipeline (folder : String) (limit : Int) (cu : Option String)
    (page : Option (List GraphMessage)) : Except String ConversationsResponse :=
  if ¬ (lowerStr folder = "inbox" ∨ lowerStr folder = "sent" ∨ lowerStr folder = "sentitems") then
    .error ("Folder must be inbox or sent")
  else if limit < 1 ∨ limit > 100 then
    .error ("Limit must be between 1 and 100")
  else
    get_conversations_core cu page

/-- Model of filter_conversations_needing_immediate_followup: keep the
conversations whose last_message_status is reply. -/
def filter_conversations_needing_immediate_followup
    (conversations : List Conversation) : List Conversation :=
  conversations.filter fun conv => conv.last_message_status == "reply"

/-- Model of filter_conversations_needing_nudging, with the wall clock
datetime.now passed as the parameter now: keep the conversations whose
last_message_status is initial, follow_up or nudge and whose last message
has a received time at least 90 days before now.  The received time alone
is consulted; the sent time is not a fallback here. -/
def filter_conversations_needing_nudging (now : Int)
    (conversations : List Conversation) : List Conversation :=
  let three_months_ago := now - 90 * 86400
  conversations.filter fun conv =>
    (conv.last_message_status == "initial" || conv.last_message_status == "follow_up" ||
      conv.last_message_status == "nudge") &&
    match conv.messages.getLast? with
    | none => false
    | some last =>
      match last.base.received_date_time with
      | none => false
      | some t => decide (_normalize_datetime t ≥ _normalize_datetime three_months_ago)

/-- Model of the filter_conversations endpoint body: filter, then total the
message counts of the kept conversations. -/
def filter_conversations_endpoint (convs : List Conversation) : ConversationsResponse :=
  let filtered := filter_conversations_needing_immediate_followup convs
  ⟨filtered, filtered.length, (filtered.map (fun c => c.total_messages)).sum⟩

/-- Model of the filter_conversations_needing_nudging_endpoint body. -/
def filter_conversations_needing_nudging_endpoint (now : Int)
    (convs : List Conversation) : ConversationsResponse :=
  let filtered := filter_conversations_needing_nudging now convs
  ⟨filtered, filtered.length, (filtered.map (fun c => c.total_messages)).sum⟩

/-- Reclassification of an already classified thread: the underlying
messages are classified again with the same context; the previously stored
message_type and is_from_current_user fields are not consulted. -/
def reclassify (cu : Option String) (anns : List AnnMessage) : List AnnMessage :=
  annotate cu (anns.map (fun a => a.base))

/-! ### Concrete inputs used by scenario conjuncts, witnesses and
counterexamples -/

/-- A sender record for the current user, in mixed case to exercise the
case-insensitive comparison. -/
def fromU : Option Recipient := some ⟨some ⟨some ("U@X.com")⟩⟩

/-- A sender record for an external correspondent. -/
def fromOther : Option Recipient := some ⟨some ⟨some ("other@y.com")⟩⟩

/-- Scenario A message at T0, from the current user. -/
def sA0 : GraphMessage := ⟨some ("A"), none, some ("hello"), fromU, some 0, none⟩

/-- Scenario A message at T0 plus one hour, from the current user. -/
def sA1 : GraphMessage := ⟨some ("A"), none, some ("hello"), fromU, some 3600, none⟩

/-- Scenario A message at T0 plus five days, from the current user. -/
def sA2 : GraphMessage := ⟨some ("A"), none, some ("hello"), fromU, some 432000, none⟩

/-- First message of conversation A for the total_messages evaluation. -/
def c8m1 : GraphMessage := ⟨some ("A"), none, some ("hello"), fromU, some 100, none⟩

/-- Second message of conversation A for the total_messages evaluation. -/
def c8m2 : GraphMessage := ⟨some ("A"), none, some ("hello"), fromU, some 200, none⟩

/-- Sole message of conversation B for the total_messages evaluation. -/
def c8m3 : GraphMessage := ⟨some ("B"), none, some ("hi"), fromOther, some 300, none⟩

/-- The grouping of the three-message collection above. -/
def out3 : List (String × List GraphMessage) :=
  [("A", [c8m1, c8m2]), ("B", [c8m3])]

/-- A message of conversation Z with a resolvable timestamp. -/
def mixA : GraphMessage := ⟨some ("Z"), none, some ("hi"), fromOther, some 1000, none⟩

/-- A message of conversation Z with no timestamp at all. -/
def mixB : GraphMessage := ⟨some ("Z"), none, some ("re"), fromOther, none, none⟩

/-- A second message of conversation Z with no timestamp at all. -/
def mixC : GraphMessage := ⟨some ("Z"), none, some ("x"), fromOther, none, none⟩

/-- Scenario D: first message of conversation D, timestamp 100. -/
def d0 : GraphMessage := ⟨some ("D"), none, some ("one"), fromOther, some 100, none⟩

/-- Scenario D: second message of conversation D, same timestamp 100. -/
def d1 : GraphMessage := ⟨some ("D"), none, some ("two"), fromOther, some 100, none⟩

/-- An evaluation instant, 90 days after epoch, used by filter scenarios. -/
def now0 : Int := 7776000

/-- The base of a last message having a sent time one day before now0 but
no received time. -/
def c2base : GraphMessage := ⟨some ("C2"), none, some ("s"), fromU, none, some 7689600⟩

/-- A conversation whose user-sent last message carries only a sent time:
its effective timestamp is recent, yet the nudging filter drops it. -/
def c2conv : Conversation := ⟨"C2", [⟨c2base, "initial", true⟩], 1, "initial"⟩

/-- A single inbound message, for scenario B. -/
def inb : GraphMessage := ⟨some ("R"), none, some ("q"), fromOther, some 500, none⟩

/-- The classified one-message inbound thread of scenario B. -/
def convB : Conversation :=
  ⟨"R", annotate (some ("u@x.com")) [inb], 1,
    lastStatus (annotate (some ("u@x.com")) [inb])⟩

/-- A message with both provider ids absent, a None subject and a sender
address present: the derived-key fallback concatenates None with a str. -/
def mNoSubject : GraphMessage := ⟨none, none, none, fromOther, some 10, none⟩

/-- A message with both provider ids absent, a subject, and a sender whose
email_address object carries a None address: the extracted from_email is
None and the concatenation under the hash raises. -/
def mNoneAddr : GraphMessage :=
  ⟨none, none, some ("Hello"), some ⟨some ⟨none⟩⟩, some 20, none⟩

/-! ### Helper lemmas -/

theorem truthy_eq_some {o : Option String} {s : String} (h : truthy o = some s) :
    o = some s ∧ s ≠ "" := by
  cases o with
  | none => simp [truthy] at h
  | some t =>
    by_cases ht : t = ""
    · simp [truthy, ht] at h
    · simp [truthy, ht] at h
      subst h
      exact ⟨rfl, ht⟩

theorem _get_conversation_id_ok_ne_empty {m : GraphMessage} {s : String}
    (h : _get_conversation_id m = .ok s) : s ≠ "" := by
  unfold _get_conversation_id at h
  cases hc : truthy m.conversation_id with
  | some cid =>
    simp only [hc] at h
    injection h with h2
    subst h2
    exact (truthy_eq_some hc).2
  | none =>
    simp only [hc] at h
    cases hi : truthy m.internet_message_id with
    | some iid =>
      simp only [hi] at h
      injection h with h2
      subst h2
      exact (truthy_eq_some hi).2
    | none =>
      simp only [hi] at h
      cases hs : m.subject with
      | none =>
        simp only [hs] at h
        exact Except.noConfusion h
      | some subj =>
        simp only [hs] at h
        cases hfe : senderFromEmail m with
        | none =>
          simp only [hfe] at h
          exact Except.noConfusion h
        | some fe =>
          simp only [hfe] at h
          injection h with h2
          intro hempty
          rw [hempty] at h2
          have hlen := congrArg String.length h2
          simp [String.length_append] at hlen
          have : ("subject_" : String).length = 8 := rfl
          omega

theorem keyOrEmpty_eq_of_ok {m : GraphMessage} {s : String}
    (h : _get_conversation_id m = .ok s) : conversationKeyOrEmpty m = s := by
  unfold conversationKeyOrEmpty
  rw [h]

theorem keyOrEmpty_ne_empty {m : GraphMessage}
    (h : ∃ s, _get_conversation_id m = .ok s) : conversationKeyOrEmpty m ≠ "" := by
  obtain ⟨s, hs⟩ := h
  rw [keyOrEmpty_eq_of_ok hs]
  exact _get_conversation_id_ok_ne_empty hs

theorem resolveAll_ok_forall : ∀ (l : List GraphMessage) (ks : List String),
    resolveAll l = .ok ks → ∀ m ∈ l, ∃ s, _get_conversation_id m = .ok s := by
  intro l
  induction l with
  | nil =>
    intro ks h m hm
    simp at hm
  | cons m0 rest ih =>
    intro ks h m hm
    simp only [resolveAll] at h
    cases hg : _get_conversation_id m0 with
    | error e =>
      simp only [hg] at h
      exact Except.noConfusion h
    | ok k =>
      simp only [hg] at h
      cases hra : resolveAll rest with
      | error e =>
        simp only [hra] at h
        exact Except.noConfusion h
      | ok ks2 =>
        rcases List.mem_cons.mp hm with h1 | h2
        · subst h1
          exact ⟨k, hg⟩
        · exact ih ks2 hra m h2

theorem kept_eq_self (messages : List GraphMessage)
    (hres : ∀ m ∈ messages, ∃ s, _get_conversation_id m = .ok s) :
    (messages.filter fun m => decide (conversationKeyOrEmpty m ≠ "")) = messages :=
  List.filter_eq_self.mpr fun a ha => decide_eq_true (keyOrEmpty_ne_empty (hres a ha))

theorem mem_firstKeys {k : String} : ∀ {l : List String}, k ∈ firstKeys l ↔ k ∈ l := by
  intro l
  induction l with
  | nil => simp [firstKeys]
  | cons a l ih =>
    simp only [firstKeys, List.mem_cons, List.mem_filter]
    constructor
    · rintro (h | ⟨h, -⟩)
      · exact Or.inl h
      · exact Or.inr (ih.mp h)
    · rintro (h | h)
      · exact Or.inl h
      · by_cases hk : k = a
        · exact Or.inl hk
        · exact Or.inr ⟨ih.mpr h, by simpa using hk⟩

theorem firstKeys_nodup : ∀ (l : List String), (firstKeys l).Nodup := by
  intro l
  induction l with
  | nil => simp [firstKeys]
  | cons a l ih =>
    simp only [firstKeys]
    refine List.Nodup.cons ?_ (List.Nodup.filter _ ih)
    intro hmem
    have := (List.mem_filter.mp hmem).2
    simp at this


theorem annotateGo_getElem (cu : Option String) :
    ∀ (l : List GraphMessage) (ff : Bool) (prev : Option GraphMessage) (i : Nat),
    (annotateGo cu ff prev l)[i]? = (l[i]?).map fun m =>
      ⟨m, mkRole cu (ff || (l.take i).any (isFromCurrentUser cu))
            (if i = 0 then prev else l[i - 1]?) m,
        isFromCurrentUser cu m⟩ := by
  intro l
  induction l with
  | nil => intro ff prev i; simp [annotateGo]
  | cons m0 rest ih =>
    intro ff prev i
    cases i with
    | zero => simp [annotateGo]
    | succ j =>
      have ih2 := ih (ff || isFromCurrentUser cu m0) (some m0) j
      cases j with
      | zero =>
        simp only [annotateGo, List.getElem?_cons_succ, ih2]
        simp [Bool.or_assoc]
      | succ j2 =>
        simp only [annotateGo, List.getElem?_cons_succ, ih2]
        simp [Bool.or_assoc]

theorem classifyRoles_getElem (cu : Option String) (msgs : List GraphMessage) (i : Nat) :
    (classifyRoles cu msgs)[i]? = (msgs[i]?).map fun m =>
      mkRole cu ((msgs.take i).any (isFromCurrentUser cu))
        (if i = 0 then none else msgs[i - 1]?) m := by
  unfold classifyRoles annotate
  rw [List.getElem?_map, annotateGo_getElem]
  cases msgs[i]? <;> simp

theorem annotateGo_map_base (cu : Option String) :
    ∀ (l : List GraphMessage) (ff : Bool) (prev : Option GraphMessage),
    (annotateGo cu ff prev l).map (fun a => a.base) = l := by
  intro l
  induction l with
  | nil => intro ff prev; simp [annotateGo]
  | cons m0 rest ih => intro ff prev; simp [annotateGo, ih]

theorem nudgeCheck_iff (cu : Option String) (p m : GraphMessage) :
    nudgeCheck cu (some p) m = true ↔
      (isFromCurrentUser cu p = true ∧
        ∃ ct pt, effTs m = some ct ∧ effTs p = some pt ∧ ct - pt ≥ 3 * 86400) := by
  cases hfu : isFromCurrentUser cu p with
  | false => simp [nudgeCheck, hfu]
  | true =>
    cases hm : effTs m with
    | none => simp [nudgeCheck, hfu, hm]
    | some ct =>
      cases hp : effTs p with
      | none => simp [nudgeCheck, hfu, hm, hp]
      | some pt => simp [nudgeCheck, hfu, hm, hp, _normalize_datetime]

theorem mkRole_ne_unknown (cu : Option String) (ff : Bool)
    (prev : Option GraphMessage) (m : GraphMessage) :
    mkRole cu ff prev m ≠ "unknown" := by
  unfold mkRole
  split
  · split
    · decide
    · split
      · decide
      · decide
  · decide

theorem annotateGo_none_reply (l : List GraphMessage) :
    ∀ (ff : Bool) (prev : Option GraphMessage) (a : AnnMessage),
    a ∈ annotateGo none ff prev l → a.message_type = "reply" := by
  induction l with
  | nil => intro ff prev a h; simp [annotateGo] at h
  | cons m0 rest ih =>
    intro ff prev a h
    simp only [annotateGo, List.mem_cons] at h
    rcases h with h | h
    · have hfu : isFromCurrentUser none m0 = false := rfl
      rw [h]
      simp [mkRole, hfu]
    · exact ih _ _ _ h

theorem sortBucket_ok {ms b : List GraphMessage} (h : sortBucket ms = .ok b) :
    b = List.insertionSort msgLE ms := by
  unfold sortBucket at h
  split at h
  · exact Except.noConfusion h
  · exact (Except.ok.inj h).symm

theorem tsLE_refl (v : Option Int) : tsLE v v = true := by
  cases v with
  | none => rfl
  | some x => simp [tsLE]

theorem insertionSort_filter_key (v : Option Int) (l : List GraphMessage) :
    (List.insertionSort msgLE l).filter (fun m => decide (effTs m = v)) =
      l.filter (fun m => decide (effTs m = v)) := by
  have hpair : (l.filter (fun m => decide (effTs m = v))).Pairwise msgLE := by
    apply List.pairwise_of_forall_mem_list
    intro a ha b hb
    have ha2 := of_decide_eq_true (List.mem_filter.mp ha).2
    have hb2 := of_decide_eq_true (List.mem_filter.mp hb).2
    unfold msgLE
    rw [ha2, hb2]
    exact tsLE_refl v
  have hsub : List.Sublist (l.filter fun m => decide (effTs m = v))
      (List.insertionSort msgLE l) :=
    List.sublist_insertionSort hpair (List.filter_sublist l)
  have hsub2 : List.Sublist (l.filter fun m => decide (effTs m = v))
      ((List.insertionSort msgLE l).filter fun m => decide (effTs m = v)) := by
    have h3 := List.Sublist.filter (fun m => decide (effTs m = v)) hsub
    rw [List.filter_filter] at h3
    simpa [Bool.and_self] using h3
  have hlen : ((List.insertionSort msgLE l).filter (fun m => decide (effTs m = v))).length =
      (l.filter (fun m => decide (effTs m = v))).length :=
    ((List.perm_insertionSort msgLE l).filter _).length_eq
  exact (hsub2.eq_of_length hlen.symm).symm

theorem flatMap_congr_mem {β γ : Type} (l : List β) (f g : β → List γ)
    (h : ∀ x ∈ l, f x = g x) : l.flatMap f = l.flatMap g := by
  induction l with
  | nil => rfl
  | cons a t ih =>
    have ht := ih fun x hx => h x (List.mem_cons_of_mem a hx)
    simp [List.flatMap_cons, h a (List.mem_cons_self a t), ht]

theorem perm_flatMap_filter (key : GraphMessage → String) :
    ∀ (keys : List String) (l : List GraphMessage), keys.Nodup →
      (∀ a ∈ l, key a ∈ keys) →
      (keys.flatMap fun k => l.filter fun a => decide (key a = k)).Perm l := by
  intro keys
  induction keys with
  | nil =>
    intro l _ hcov
    cases l with
    | nil => simp
    | cons a t => exact absurd (hcov a (List.mem_cons_self a t)) (List.not_mem_nil _)
  | cons k ks ih =>
    intro l hnd hcov
    have hk_not : k ∉ ks := (List.nodup_cons.mp hnd).1
    have hnd2 : ks.Nodup := (List.nodup_cons.mp hnd).2
    have hcov2 : ∀ a ∈ l.filter (fun a => !decide (key a = k)), key a ∈ ks := by
      intro a ha
      have hmem := (List.mem_filter.mp ha).1
      have hne : key a ≠ k := by simpa using (List.mem_filter.mp ha).2
      have := hcov a hmem
      simp only [List.mem_cons] at this
      tauto
    have hperm2 := ih (l.filter (fun a => !decide (key a = k))) hnd2 hcov2
    have heq : ∀ k2 ∈ ks, (l.filter fun a => decide (key a = k2)) =
        ((l.filter (fun a => !decide (key a = k))).filter fun a => decide (key a = k2)) := by
      intro k2 hk2
      have hne : k2 ≠ k := fun h => hk_not (h ▸ hk2)
      rw [List.filter_filter]
      apply List.filter_congr
      intro a _
      by_cases hak : key a = k2
      · simp [hak, hne]
      · simp [hak]
    have step1 : ((k :: ks).flatMap fun k2 => l.filter fun a => decide (key a = k2)) =
        (l.filter fun a => decide (key a = k)) ++
          (ks.flatMap fun k2 =>
            (l.filter (fun a => !decide (key a = k))).filter fun a => decide (key a = k2)) := by
      rw [List.flatMap_cons, flatMap_congr_mem ks _ _ heq]
    rw [step1]
    exact (hperm2.append_left _).trans (List.filter_append_perm _ l)

theorem sortAll_ok_spec : ∀ (l out : List (String × List GraphMessage)),
    sortAll l = .ok out →
    out.map Prod.fst = l.map Prod.fst ∧
    ((out.flatMap fun b => b.2).Perm (l.flatMap fun b => b.2)) ∧
    (∀ e ∈ out, ∃ ms, (e.1, ms) ∈ l ∧ sortBucket ms = .ok e.2) ∧
    (∀ e ∈ l, ∃ b, (e.1, b) ∈ out ∧ sortBucket e.2 = .ok b) := by
  intro l
  induction l with
  | nil =>
    intro out h
    simp only [sortAll] at h
    have : ([] : List (String × List GraphMessage)) = out := Except.ok.inj h
    subst this
    refine ⟨rfl, by simp, ?_, ?_⟩
    · intro e he; simp at he
    · intro e he; simp at he
  | cons p rest ih =>
    intro out h
    obtain ⟨k, ms⟩ := p
    simp only [sortAll] at h
    cases hsb : sortBucket ms with
    | error err =>
      simp only [hsb] at h
      exact Except.noConfusion h
    | ok s =>
      simp only [hsb] at h
      cases hsa : sortAll rest with
      | error err =>
        simp only [hsa] at h
        exact Except.noConfusion h
      | ok r =>
        simp only [hsa] at h
        have : (k, s) :: r = out := Except.ok.inj h
        subst this
        obtain ⟨ihfst, ihperm, ihright, ihleft⟩ := ih r hsa
        refine ⟨?_, ?_, ?_, ?_⟩
        · simp [ihfst]
        · simp only [List.flatMap_cons]
          have hs : s.Perm ms := by
            rw [sortBucket_ok hsb]
            exact List.perm_insertionSort msgLE ms
          exact hs.append ihperm
        · intro e he
          rcases List.mem_cons.mp he with he1 | he2
          · subst he1
            exact ⟨ms, List.mem_cons_self _ _, hsb⟩
          · obtain ⟨ms2, hm2, hs2⟩ := ihright e he2
            exact ⟨ms2, List.mem_cons_of_mem _ hm2, hs2⟩
        · intro e he
          rcases List.mem_cons.mp he with he1 | he2
          · subst he1
            exact ⟨s, List.mem_cons_self _ _, hsb⟩
          · obtain ⟨b2, hb2, hs2⟩ := ihleft e he2
            exact ⟨b2, List.mem_cons_of_mem _ hb2, hs2⟩

theorem rawBuckets_eq (messages : List GraphMessage)
    (hres : ∀ m ∈ messages, ∃ s, _get_conversation_id m = .ok s) :
    rawBuckets messages = (firstKeys (messages.map conversationKeyOrEmpty)).map
      (fun k => (k, messages.filter fun m => decide (conversationKeyOrEmpty m = k))) := by
  simp only [rawBuckets]
  rw [kept_eq_self messages hres]

theorem mem_rawBuckets {messages : List GraphMessage} {k : String}
    {ms : List GraphMessage}
    (hres : ∀ m ∈ messages, ∃ s, _get_conversation_id m = .ok s) :
    (k, ms) ∈ rawBuckets messages ↔
      (k ∈ messages.map conversationKeyOrEmpty ∧
        ms = messages.filter fun m => decide (conversationKeyOrEmpty m = k)) := by
  rw [rawBuckets_eq messages hres]
  constructor
  · intro hmem
    obtain ⟨k2, hk2, heq⟩ := List.mem_map.mp hmem
    injection heq with h1 h2
    subst h1
    subst h2
    exact ⟨mem_firstKeys.mp hk2, rfl⟩
  · rintro ⟨hk, hms⟩
    subst hms
    exact List.mem_map.mpr ⟨k, mem_firstKeys.mpr hk, rfl⟩

theorem rawBuckets_fst_nodup (messages : List GraphMessage) :
    ((rawBuckets messages).map Prod.fst).Nodup := by
  simp only [rawBuckets]
  rw [List.map_map]
  have hid : (Prod.fst ∘ fun k =>
      (k, (messages.filter fun m => decide (conversationKeyOrEmpty m ≠ "")).filter
        fun m => decide (conversationKeyOrEmpty m = k))) = id := rfl
  rw [hid, List.map_id]
  exact firstKeys_nodup _

/-! ### Claim theorems -/

/-- C1: walking a thread in chronological order with a resolved current-user
email, a message not from the current user gets role reply; the first
current-user message gets role initial; a later current-user message gets
role nudge exactly when the immediately preceding message is also from the
current user, both effective timestamps resolve and the gap is at least 3
days, and otherwise follow_up; no role is unknown; and the scenario of three
current-user messages at T0, T0 plus one hour and T0 plus five days yields
roles initial, follow_up, nudge with thread status nudge. -/
theorem c1_role_classifier (cu : String) (hcu : cu ≠ "") (msgs : List GraphMessage) :
    (∀ (i : Nat) (m : GraphMessage), msgs[i]? = some m → isFromCurrentUser (some cu) m = false →
      (classifyRoles (some cu) msgs)[i]? = some ("reply")) ∧
    (∀ (i : Nat) (m : GraphMessage), msgs[i]? = some m → isFromCurrentUser (some cu) m = true →
      (msgs.take i).any (isFromCurrentUser (some cu)) = false →
      (classifyRoles (some cu) msgs)[i]? = some ("initial")) ∧
    (∀ (i : Nat) (m p : GraphMessage), msgs[i]? = some m → isFromCurrentUser (some cu) m = true →
      (msgs.take i).any (isFromCurrentUser (some cu)) = true →
      msgs[i - 1]? = some p →
      (((classifyRoles (some cu) msgs)[i]? = some ("nudge") ∨
        (classifyRoles (some cu) msgs)[i]? = some ("follow_up")) ∧
       ((classifyRoles (some cu) msgs)[i]? = some ("nudge") ↔
         (isFromCurrentUser (some cu) p = true ∧
           ∃ ct pt, effTs m = some ct ∧ effTs p = some pt ∧ ct - pt ≥ 3 * 86400)))) ∧
    (∀ (i : Nat) (r : String), (classifyRoles (some cu) msgs)[i]? = some r → r ≠ "unknown") ∧
    (classifyRoles (some ("u@x.com")) [sA0, sA1, sA2] = ["initial", "follow_up", "nudge"] ∧
     lastStatus (annotate (some ("u@x.com")) [sA0, sA1, sA2]) = "nudge") := by
  refine ⟨?_, ?_, ?_, ?_, by decide, by decide⟩
  · intro i m hm hfu
    rw [classifyRoles_getElem, hm]
    simp [mkRole, hfu]
  · intro i m hm hfu hany
    rw [classifyRoles_getElem, hm]
    simp [mkRole, hfu, hany]
  · intro i m p hm hfu hany hp
    have hi0 : i ≠ 0 := by
      intro h0
      subst h0
      simp at hany
    have hval : (classifyRoles (some cu) msgs)[i]? =
        some (if nudgeCheck (some cu) (some p) m then "nudge" else "follow_up") := by
      rw [classifyRoles_getElem, hm, if_neg hi0, hp]
      simp [mkRole, hfu, hany]
    constructor
    · by_cases hn : nudgeCheck (some cu) (some p) m = true
      · left
        rw [hval, if_pos hn]
      · right
        rw [hval, if_neg hn]
    · constructor
      · intro hng
        rw [hval] at hng
        by_cases hn : nudgeCheck (some cu) (some p) m = true
        · exact (nudgeCheck_iff (some cu) p m).mp hn
        · rw [if_neg hn] at hng
          simp at hng
      · intro hcond
        rw [hval, if_pos ((nudgeCheck_iff (some cu) p m).mpr hcond)]
  · intro i r hr
    rw [classifyRoles_getElem (some cu) msgs i] at hr
    cases hm : msgs[i]? with
    | none =>
      rw [hm] at hr
      simp at hr
    | some m =>
      rw [hm] at hr
      simp only [Option.map_some', Option.some.injEq] at hr
      rw [← hr]
      exact mkRole_ne_unknown _ _ _ _

/-- Closed instance of the classifier theorem: scenario A, three messages
from the current user at T0, T0 plus one hour and T0 plus five days. -/
theorem c1_role_classifier_witness :
    classifyRoles (some ("u@x.com")) [sA0, sA1, sA2] = ["initial", "follow_up", "nudge"] ∧
    lastStatus (annotate (some ("u@x.com")) [sA0, sA1, sA2]) = "nudge" :=
  (c1_role_classifier ("u@x.com") (by decide) [sA0, sA1, sA2]).2.2.2.2

/-- C9: classification is idempotent: reclassifying an already classified
thread with the same context yields the same annotated messages and the same
thread status, because only the carried-through base fields are consulted. -/
theorem c9_classification_idempotent (cu : Option String) (anns : List AnnMessage) :
    reclassify cu (reclassify cu anns) = reclassify cu anns ∧
    lastStatus (reclassify cu (reclassify cu anns)) = lastStatus (reclassify cu anns) := by
  have h1 : reclassify cu (reclassify cu anns) = reclassify cu anns := by
    unfold reclassify
    congr 1
    exact annotateGo_map_base cu (anns.map fun a => a.base) false none
  exact ⟨h1, by rw [h1]⟩

/-- C5 states the intent but the code can raise: the resolver returns the
truthy provider conversation id first, then the truthy provider message id;
in the remaining case it builds a subject_-marked key that is a pure
function of the subject and sender address and is never empty, provided
both are strings - but a None subject, or a present email_address whose
address is None, makes the concatenation under the hash raise TypeError
instead of always succeeding, as the two closing conjuncts evaluate. -/
theorem c5_resolver_spec (m : GraphMessage) :
    (∀ s, _get_conversation_id m = .ok s → s ≠ "") ∧
    (∀ cid, truthy m.conversation_id = some cid → _get_conversation_id m = .ok cid) ∧
    (truthy m.conversation_id = none → ∀ iid, truthy m.internet_message_id = some iid →
      _get_conversation_id m = .ok iid) ∧
    (truthy m.conversation_id = none → truthy m.internet_message_id = none →
      ∀ subj fe, m.subject = some subj → senderFromEmail m = some fe →
        (∃ t, _get_conversation_id m = .ok ("subject_" ++ t)) ∧
        ∀ m2 : GraphMessage, truthy m2.conversation_id = none →
          truthy m2.internet_message_id = none →
          m2.subject = some subj → senderFromEmail m2 = some fe →
          _get_conversation_id m = _get_conversation_id m2) ∧
    _get_conversation_id mNoSubject =
      .error ("TypeError: unsupported operand types for + with NoneType") ∧
    _get_conversation_id mNoneAddr =
      .error ("TypeError: unsupported operand types for + with NoneType") := by
  refine ⟨fun s hs => _get_conversation_id_ok_ne_empty hs, ?_, ?_, ?_, rfl, rfl⟩
  · intro cid hc
    unfold _get_conversation_id
    rw [hc]
  · intro hc iid hi
    unfold _get_conversation_id
    rw [hc, hi]
  · intro hc hi subj fe hsubj hfe
    constructor
    · refine ⟨toString (hashStr (subj ++ fe)), ?_⟩
      unfold _get_conversation_id
      rw [hc, hi, hsubj, hfe]
    · intro m2 hc2 hi2 hsubj2 hfe2
      unfold _get_conversation_id
      rw [hc, hi, hsubj, hfe, hc2, hi2, hsubj2, hfe2]

/-- C3: single-folder grouping is a partition: the threads together hold
exactly the input messages (as a multiset), every thread is non-empty, and
every input message lies in exactly one thread. -/
theorem c3_grouping_partition (msgs : List GraphMessage)
    (out : List (String × List GraphMessage))
    (h : group_messages_by_conversation_single_folder msgs = .ok out) :
    ((out.flatMap fun b => b.2).Perm msgs) ∧
    (∀ b ∈ out, b.2 ≠ []) ∧
    (∀ m ∈ msgs, ∃ b, b ∈ out ∧ m ∈ b.2 ∧
      ∀ b2, b2 ∈ out → m ∈ b2.2 → b2 = b) := by
  unfold group_messages_by_conversation_single_folder at h
  cases hra : resolveAll msgs with
  | error e =>
    simp only [hra] at h
    exact Except.noConfusion h
  | ok ks =>
  simp only [hra] at h
  have hres := resolveAll_ok_forall msgs ks hra
  obtain ⟨hfst, hperm, hright, hleft⟩ := sortAll_ok_spec _ _ h
  have hraw : ((rawBuckets msgs).flatMap fun b => b.2).Perm msgs := by
    rw [rawBuckets_eq msgs hres, List.flatMap_map]
    have hcov : ∀ a ∈ msgs, conversationKeyOrEmpty a ∈
        firstKeys (msgs.map conversationKeyOrEmpty) := by
      intro a ha
      exact mem_firstKeys.mpr (List.mem_map_of_mem conversationKeyOrEmpty ha)
    exact perm_flatMap_filter conversationKeyOrEmpty _ msgs
      (firstKeys_nodup _) hcov
  have hnodup : (out.map Prod.fst).Nodup := by
    rw [hfst]
    exact rawBuckets_fst_nodup msgs
  have hpw : out.Pairwise (fun a b => a.1 ≠ b.1) := List.pairwise_map.mp hnodup
  have hsym : Symmetric (fun a b : String × List GraphMessage => a.1 ≠ b.1) :=
    fun x y hxy he => hxy he.symm
  refine ⟨hperm.trans hraw, ?_, ?_⟩
  · intro b hb
    obtain ⟨ms, hmem, hsb⟩ := hright b hb
    obtain ⟨k, bl⟩ := b
    obtain ⟨hk, hms⟩ := (mem_rawBuckets hres).mp hmem
    obtain ⟨m0, hm0, hgid⟩ := List.mem_map.mp hk
    have hm0f : m0 ∈ ms := by
      rw [hms]
      exact List.mem_filter.mpr ⟨hm0, decide_eq_true hgid⟩
    have : m0 ∈ bl := by
      have hbl := sortBucket_ok hsb
      simp only at hbl
      rw [hbl]
      exact (List.mem_insertionSort msgLE).mpr hm0f
    exact List.ne_nil_of_mem this
  · intro m hm
    have hkmem : conversationKeyOrEmpty m ∈ msgs.map conversationKeyOrEmpty :=
      List.mem_map_of_mem conversationKeyOrEmpty hm
    have hrb : (conversationKeyOrEmpty m,
        msgs.filter fun x => decide (conversationKeyOrEmpty x = conversationKeyOrEmpty m)) ∈
        rawBuckets msgs := (mem_rawBuckets hres).mpr ⟨hkmem, rfl⟩
    obtain ⟨b, hbmem, hsb⟩ := hleft _ hrb
    have hmb : m ∈ b := by
      have hbl := sortBucket_ok hsb
      simp only at hbl
      rw [hbl]
      exact (List.mem_insertionSort msgLE).mpr
        (List.mem_filter.mpr ⟨hm, decide_eq_true rfl⟩)
    refine ⟨(conversationKeyOrEmpty m, b), hbmem, hmb, ?_⟩
    intro b2 hb2 hmb2
    obtain ⟨ms2, hms2mem, hsb2⟩ := hright b2 hb2
    obtain ⟨k2, bl2⟩ := b2
    obtain ⟨hk2, hms2⟩ := (mem_rawBuckets hres).mp hms2mem
    have hm_in_ms2 : m ∈ ms2 := by
      have hbl2 := sortBucket_ok hsb2
      simp only at hbl2
      rw [hbl2] at hmb2
      exact (List.mem_insertionSort msgLE).mp hmb2
    have hkeq : k2 = conversationKeyOrEmpty m := by
      rw [hms2] at hm_in_ms2
      have := (List.mem_filter.mp hm_in_ms2).2
      exact (of_decide_eq_true this).symm
    by_contra hne
    have := List.Pairwise.forall hsym hpw hb2 hbmem hne
    simp only [hkeq] at this
    exact this rfl

/-- Closed instance of the partition theorem on a three-message collection
falling into two conversations. -/
theorem c3_grouping_partition_witness :
    (out3.flatMap fun b => b.2).Perm [c8m1, c8m2, c8m3] :=
  (c3_grouping_partition [c8m1, c8m2, c8m3] out3 rfl).1

/-- C4: in every thread produced by grouping, adjacent messages with
resolvable effective timestamps are in non-decreasing order, and the sort is
stable: the messages of a thread carrying any fixed effective-timestamp
value keep exactly their original relative input order. -/
theorem c4_grouping_order_stable (msgs : List GraphMessage)
    (out : List (String × List GraphMessage))
    (h : group_messages_by_conversation_single_folder msgs = .ok out)
    (k : String) (b : List GraphMessage) (hb : (k, b) ∈ out) :
    (∀ (i : Nat) (ma mb : GraphMessage) (ta tb : Int),
      b[i]? = some ma → b[i + 1]? = some mb →
      effTs ma = some ta → effTs mb = some tb → ta ≤ tb) ∧
    (∀ v : Option Int, b.filter (fun m => decide (effTs m = v)) =
      (msgs.filter fun m2 => decide (_get_conversation_id m2 = .ok k)).filter
        (fun m => decide (effTs m = v))) := by
  unfold group_messages_by_conversation_single_folder at h
  cases hra : resolveAll msgs with
  | error e =>
    simp only [hra] at h
    exact Except.noConfusion h
  | ok ks =>
  simp only [hra] at h
  have hres := resolveAll_ok_forall msgs ks hra
  obtain ⟨hfst, hperm, hright, hleft⟩ := sortAll_ok_spec _ _ h
  obtain ⟨ms, hmem, hsb⟩ := hright (k, b) hb
  have hms : ms = msgs.filter fun m2 => decide (conversationKeyOrEmpty m2 = k) :=
    ((mem_rawBuckets hres).mp hmem).2
  have hbridge : (msgs.filter fun m2 => decide (conversationKeyOrEmpty m2 = k)) =
      (msgs.filter fun m2 => decide (_get_conversation_id m2 = .ok k)) := by
    apply List.filter_congr
    intro m2 hm2
    obtain ⟨s, hs⟩ := hres m2 hm2
    rw [keyOrEmpty_eq_of_ok hs, hs]
    by_cases hsk : s = k
    · simp [hsk]
    · simp [hsk]
  have hbs : b = List.insertionSort msgLE ms := sortBucket_ok hsb
  constructor
  · intro i ma mb ta tb hma hmb hta htb
    have hsorted : b.Pairwise msgLE := by
      rw [hbs]
      exact List.sorted_insertionSort msgLE ms
    obtain ⟨hi, hgi⟩ := List.getElem?_eq_some.mp hma
    obtain ⟨hi2, hgi2⟩ := List.getElem?_eq_some.mp hmb
    have hrel := List.pairwise_iff_getElem.mp hsorted i (i + 1) hi hi2 (Nat.lt_succ_self i)
    rw [hgi, hgi2] at hrel
    unfold msgLE at hrel
    rw [hta, htb] at hrel
    simpa [tsLE] using hrel
  · intro v
    rw [hbs, hms, ← hbridge]
    exact insertionSort_filter_key v _

/-- Closed instance of the ordering and stability theorem: scenario D, two
messages of one conversation with identical timestamps keep their input
order through the grouping. -/
theorem c4_grouping_order_stable_witness :
    [d0, d1].filter (fun m => decide (effTs m = some 100)) =
      ([d0, d1].filter fun m2 => decide (_get_conversation_id m2 = .ok ("D"))).filter
        (fun m => decide (effTs m = some 100)) :=
  (c4_grouping_order_stable [d0, d1] [("D", [d0, d1])] rfl ("D") [d0, d1]
    (by decide)).2 (some 100)

/-- C2 fails on the code: a conversation whose user-sent last message has a
recent effective timestamp carried only by its sent time is dropped by the
nudging filter, because the filter consults the received time alone. -/
theorem c2_nudging_filter_counterexample :
    c2conv.last_message_status = "initial" ∧
    c2conv.messages.getLast? = some ⟨c2base, ("initial"), true⟩ ∧
    effTs c2base = some (now0 - 86400) ∧
    now0 - 90 * 86400 ≤ now0 - 86400 ∧
    filter_conversations_needing_nudging now0 [c2conv] = [] :=
  ⟨rfl, rfl, by decide, by decide, rfl⟩

/-- C2 amended: the needs-nudging filter keeps exactly the conversations
whose status is initial, follow_up or nudge and whose last message has a
received time (sent time is not used as a fallback) at least the evaluation
time minus 90 days; it preserves input order. -/
theorem c2_nudging_filter_amended :
    (∀ (now : Int) (convs : List Conversation) (c : Conversation),
      c ∈ filter_conversations_needing_nudging now convs ↔
        (c ∈ convs ∧
         (c.last_message_status = "initial" ∨ c.last_message_status = "follow_up" ∨
          c.last_message_status = "nudge") ∧
         ∃ last t, c.messages.getLast? = some last ∧
           last.base.received_date_time = some t ∧ now - 90 * 86400 ≤ t)) ∧
    (∀ (now : Int) (convs : List Conversation),
      List.Sublist (filter_conversations_needing_nudging now convs) convs) := by
  constructor
  · intro now convs c
    rcases hl : c.messages.getLast? with _ | last
    · simp [filter_conversations_needing_nudging, List.mem_filter, hl]
    · rcases hr : last.base.received_date_time with _ | t
      · simp [filter_conversations_needing_nudging, List.mem_filter, hl, hr]
      · simp [filter_conversations_needing_nudging, List.mem_filter, hl, hr,
          _normalize_datetime, ge_iff_le, and_assoc, or_assoc]
  · intro now convs
    simp only [filter_conversations_needing_nudging]
    exact List.filter_sublist convs

/-- C6 is the spec intent but the code raises: a thread holding one message
with a resolvable effective timestamp and one without makes the sort key mix
a datetime with a str, so grouping raises TypeError instead of placing the
timestamp-less message first; a thread with no timestamps at all is still
processed, in input order. -/
theorem c6_mixed_timestamps_type_error :
    group_messages_by_conversation_single_folder [mixA, mixB] =
      .error ("TypeError: unsupported comparison between str and datetime") ∧
    group_messages_by_conversation_single_folder [mixB, mixC] =
      .ok [("Z", [mixB, mixC])] :=
  ⟨rfl, rfl⟩

/-- C7: the needs-reply filter keeps exactly the conversations whose status
is reply, preserves input order, ignores timestamps entirely, and scenario
B holds: a one-message inbound thread classifies as reply, is kept by the
needs-reply filter and dropped by the needs-nudging filter. -/
theorem c7_reply_filter :
    (∀ (convs : List Conversation) (c : Conversation),
      c ∈ filter_conversations_needing_immediate_followup convs ↔
        (c ∈ convs ∧ c.last_message_status = "reply")) ∧
    (∀ convs : List Conversation,
      List.Sublist (filter_conversations_needing_immediate_followup convs) convs) ∧
    (convB.last_message_status = "reply" ∧
     filter_conversations_needing_immediate_followup [convB] = [convB] ∧
     filter_conversations_needing_nudging now0 [convB] = []) := by
  refine ⟨?_, ?_, by decide, by decide, by decide⟩
  · intro convs c
    simp [filter_conversations_needing_immediate_followup, List.mem_filter]
  · intro convs
    exact List.filter_sublist convs

/-- C8: the spec intent (total_messages is the sum of the thread message
counts) holds for the two filter endpoints, but the conversation listing
endpoint overwrites total_messages on each loop iteration and so reports
the message count of the last conversation only: on two conversations with
two and one messages it answers 1 instead of 3. -/
theorem c8_total_messages :
    ((get_conversations_core (some ("u@x.com")) (some [c8m1, c8m2, c8m3])).map
      (fun r => r.total_messages) = .ok 1) ∧
    ((get_conversations_core (some ("u@x.com")) (some [c8m1, c8m2, c8m3])).map
      (fun r => (r.conversations.map fun c => c.total_messages).sum) = .ok 3) ∧
    (∀ convs : List Conversation,
      (filter_conversations_endpoint convs).total_messages =
        ((filter_conversations_endpoint convs).conversations.map
          fun c => c.total_messages).sum) ∧
    (∀ (now : Int) (convs : List Conversation),
      (filter_conversations_needing_nudging_endpoint now convs).total_messages =
        ((filter_conversations_needing_nudging_endpoint now convs).conversations.map
          fun c => c.total_messages).sum) :=
  ⟨rfl, rfl, fun _ => rfl, fun _ _ => rfl⟩

/-- C10 fails on the code: an entirely absent message collection produces an
empty successful response, not an invalid-input signal, while an invalid
folder name is signalled although no required structural field is absent. -/
theorem c10_required_fields_counterexample :
    get_conversations_pipeline ("inbox") 50 none none = .ok ⟨[], 0, 0⟩ ∧
    get_conversations_pipeline ("spam") 50 (some ("u@x.com")) (some [c8m1]) =
      .error ("Folder must be inbox or sent") :=
  ⟨rfl, rfl⟩

/-- C10 amended: missing optional data degrades (an absent or empty message
collection yields an empty successful response; an absent current-user
identity classifies every message as reply); the invalid-input signals of
the endpoint are raised for an invalid folder name or an out-of-range
limit, not for absent structural fields. -/
theorem c10_error_handling_amended :
    (∀ cu : Option String, get_conversations_core cu none = .ok ⟨[], 0, 0⟩) ∧
    (∀ cu : Option String, get_conversations_core cu (some []) = .ok ⟨[], 0, 0⟩) ∧
    (∀ (msgs : List GraphMessage) (a : AnnMessage),
      a ∈ annotate none msgs → a.message_type = "reply") ∧
    (∀ (cu : Option String) (page : Option (List GraphMessage)),
      get_conversations_pipeline ("spam") 50 cu page =
        .error ("Folder must be inbox or sent")) ∧
    (∀ (limit : Int) (cu : Option String) (page : Option (List GraphMessage)),
      limit < 1 ∨ limit > 100 →
      get_conversations_pipeline ("inbox") limit cu page =
        .error ("Limit must be between 1 and 100")) := by
  refine ⟨fun cu => rfl, fun cu => rfl, ?_, fun cu page => rfl, ?_⟩
  · intro msgs a ha
    exact annotateGo_none_reply msgs false none a ha
  · intro limit cu page hlim
    unfold get_conversations_pipeline
    rw [if_neg (by decide), if_pos hlim]
